import Mathlib

set_option maxRecDepth 8000

/-!
Shallow embedding of the HappyChat client core (src/App.jsx): the JS string
helpers, the identity normalizer `normalizeMxId`, the room registry refresh
(`updateRooms`) and search filter (`filteredRooms`), the timeline reconciler
(`onRoomTimeline` and the active-room effect `selectRoom`), the typing-set
projection (`updateTypingForActive`) and `logout`.
-/

namespace HappyChat

/-- JS strings are modelled as lists of characters. -/
abbrev JStr := List Char

/-- The whitespace characters removed by JS `String.prototype.trim`
(the ones relevant to this development). -/
def isJsWS (c : Char) : Bool :=
  c == ' ' || c == '\t' || c == '\n' || c == '\r'

/-- The leading-whitespace half of JS `trim()`. -/
def trimLeft (s : JStr) : JStr := s.dropWhile isJsWS

/-- The trailing-whitespace half of JS `trim()`. -/
def trimRight (s : JStr) : JStr := (s.reverse.dropWhile isJsWS).reverse

/-- JS `String.prototype.trim`. -/
def jsTrim (s : JStr) : JStr := trimRight (trimLeft s)

/-- JS `String.prototype.split` with a single-character separator. -/
def splitOnChar (sep : Char) : JStr → List JStr
  | [] => [[]]
  | c :: rest =>
    if c = sep then [] :: splitOnChar sep rest
    else
      match splitOnChar sep rest with
      | [] => [[c]]
      | s :: ss => (c :: s) :: ss

/-- The default public server domain `"matrix.org"` used as fallback. -/
def fallbackServer : JStr := "matrix.org".toList

/-- `(myUserId || "").split(":")[1] || "matrix.org"` from `normalizeMxId`
(src/App.jsx line 32): the segment of `myUserId` between its first and
second colon, with the fallback when that segment is absent or empty. -/
def serverOf (myUserId : JStr) : JStr :=
  match (splitOnChar ':' myUserId)[1]? with
  | none => fallbackServer
  | some s => if s = [] then fallbackServer else s

/-- `normalizeMxId(input, myUserId)` from src/App.jsx lines 27-35.
`v.startsWith("@")` is `v.head? = some '@'`, `v.includes(":")` is
`':' ∈ v`, and `v.slice(1)` is `v.tail`. -/
def normalizeMxId (input myUserId : JStr) : JStr :=
  if jsTrim input = [] then []
  else if (jsTrim input).head? = some '@' ∧ ':' ∈ jsTrim input then jsTrim input
  else
    '@' :: ((if (jsTrim input).head? = some '@' then (jsTrim input).tail
             else jsTrim input) ++ ':' :: serverOf myUserId)

/-- The reading of "the domain portion of `myUserId` (the text after its
`':'`)" taken literally from the claim: everything after the first colon. -/
def textAfterFirstColon : JStr → Option JStr
  | [] => none
  | c :: t => if c = ':' then some t else textAfterFirstColon t

/-- JS `toLowerCase`, modelled character-wise. -/
def jsLower (s : JStr) : JStr := s.map Char.toLower

-- -------------------- data model --------------------

/-- A timeline event as the core reads it: its id, the id of the room it
belongs to, and its content body. -/
structure MatrixEvent where
  eventId : String
  roomId : String
  body : String
deriving DecidableEq

/-- A room member as read by the typing-set projection; empty string models
an absent field. -/
structure Member where
  name : String
  rawDisplayName : String
  displayName : String
  userId : String
deriving DecidableEq

/-- A room as the core reads it from the SDK client. `lastActiveTimestamp`
is `none` when the room has no recorded activity. -/
structure Room where
  roomId : String
  name : String
  lastActiveTimestamp : Option Nat
  liveTimeline : List MatrixEvent
  typingMembers : List Member
  lastLiveEvent : Option MatrixEvent
deriving DecidableEq

/-- The SDK client, reduced to what the core queries: its room set. -/
structure Client where
  rooms : List Room
deriving DecidableEq

/-- `client.getRoom(roomId)`. -/
def Client.getRoom (c : Client) (rid : String) : Option Room :=
  c.rooms.find? (fun r => r.roomId == rid)

-- -------------------- room registry --------------------

/-- `r.getLastActiveTimestamp?.() || 0` — the sort key with floor 0. -/
def lastTs (r : Room) : Nat := r.lastActiveTimestamp.getD 0

/-- The comparator `(a, b) => tb - ta` admits `a` before `b` exactly when
`a`'s key is at least `b`'s. -/
def byActivityDesc (a b : Room) : Prop := lastTs b ≤ lastTs a

instance : DecidableRel byActivityDesc := fun a b =>
  inferInstanceAs (Decidable (lastTs b ≤ lastTs a))

instance : IsTotal Room byActivityDesc :=
  ⟨fun a b => (Nat.le_total (lastTs b) (lastTs a)).imp id id⟩

instance : IsTrans Room byActivityDesc :=
  ⟨fun _ _ _ h1 h2 => Nat.le_trans h2 h1⟩

/-- `updateRooms` (src/App.jsx lines 138-151): the room set sorted
descending by last-activity timestamp.  JS `Array.prototype.sort` is
stable, so a stable sort models it. -/
def updateRooms (c : Client) : List Room :=
  List.insertionSort byActivityDesc c.rooms

-- -------------------- search filter --------------------

/-- `(r.name || r.roomId || "")` from `filteredRooms`. -/
def roomDisplayName (r : Room) : String :=
  if r.name ≠ "" then r.name else if r.roomId ≠ "" then r.roomId else ""

/-- `(r.getLastLiveEvent?.()?.getContent?.()?.body || "")`. -/
def roomPreviewBody (r : Room) : String :=
  match r.lastLiveEvent with
  | some e => e.body
  | none => ""

/-- JS `String.prototype.includes`: substring containment. -/
def jsIncludes (hay needle : JStr) : Bool := decide (needle <:+: hay)

/-- `filteredRooms` (src/App.jsx lines 355-363): `q` is the query
trimmed then lowercased, and `!q` tests emptiness. -/
def filteredRooms (rooms : List Room) (query : String) : List Room :=
  if jsLower (jsTrim query.toList) = [] then rooms
  else rooms.filter (fun r =>
    jsIncludes (jsLower (roomDisplayName r).toList)
      (jsLower (jsTrim query.toList)) ||
    jsIncludes (jsLower (roomPreviewBody r).toList)
      (jsLower (jsTrim query.toList)))

-- -------------------- timeline reconciler --------------------

/-- The reconciler's local state: the active-room selection and the
in-memory event sequence. -/
structure TimelineState where
  activeRoomId : Option String
  events : List MatrixEvent
deriving DecidableEq

/-- `onRoomTimeline(ev, room, toStartOfTimeline)` (src/App.jsx lines
179-190): ignore back-filled events and events for other rooms; otherwise
append at the tail and keep at most the most recent 200 entries. -/
def onRoomTimeline (ev : MatrixEvent) (room : Option Room)
    (toStartOfTimeline : Bool) (st : TimelineState) : TimelineState :=
  if toStartOfTimeline then st
  else
    match room with
    | none => st
    | some r =>
      if st.activeRoomId = some r.roomId then
        { st with events :=
            let next := st.events ++ [ev]
            if 200 < next.length then next.drop (next.length - 200) else next }
      else st

/-- `client && activeRoomId ? client.getRoom(activeRoomId) : null`. -/
def activeRoomOf (client : Option Client) (activeRoomId : Option String) :
    Option Room :=
  match client, activeRoomId with
  | some c, some rid => c.getRoom rid
  | _, _ => none

/-- The active-room effect (src/App.jsx lines 244-264): on a selection
change, replace the event sequence with the selected room's live timeline,
or empty it when there is no client, no selection, or the room is
unknown. -/
def selectRoom (client : Option Client) (st : TimelineState)
    (rid : Option String) : TimelineState :=
  match activeRoomOf client rid with
  | none => { activeRoomId := rid, events := [] }
  | some room => { activeRoomId := rid, events := room.liveTimeline }

-- -------------------- typing-set projection --------------------

/-- `m?.name || m?.rawDisplayName || m?.displayName || m?.userId`. -/
def jsMemberName (m : Member) : String :=
  if m.name ≠ "" then m.name
  else if m.rawDisplayName ≠ "" then m.rawDisplayName
  else if m.displayName ≠ "" then m.displayName
  else m.userId

/-- `updateTypingForActive` (src/App.jsx lines 153-170). -/
def updateTypingForActive (c : Client) (activeRoomId : Option String)
    (myUserId : Option String) : List String :=
  match activeRoomId with
  | none => []
  | some rid =>
    match c.getRoom rid with
    | none => []
    | some room =>
      (((room.typingMembers.map jsMemberName).filter (fun n => n != ""))
        |>.filter (fun n =>
          match myUserId with
          | some u => n != u
          | none => true)
        |>.take 3)

-- -------------------- logout --------------------

/-- The persisted credential bundle. -/
structure Session where
  baseUrl : String
  accessToken : String
  userId : String
  deviceId : String
deriving DecidableEq

/-- The application state touched by `logout`. -/
structure AppState where
  persistedSession : Option Session
  session : Option Session
  client : Option Client
  rooms : List Room
  activeRoomId : Option String
  events : List MatrixEvent
  message : String
  typingUsers : List String
deriving DecidableEq

/-- Observable steps of `logout`, in order: the best-effort server call,
then the removal of the persisted session record. -/
inductive LogoutStep where
  | serverLogout
  | clearStoredSession
deriving DecidableEq

/-- The state `logout` leaves behind: everything empty. -/
def emptyAfterLogout : AppState :=
  { persistedSession := none, session := none, client := none, rooms := [],
    activeRoomId := none, events := [], message := "", typingUsers := [] }

/-- `logout()` (src/App.jsx lines 286-298): `try { if (client) await
client.logout() } catch {}` — attempted when a client exists, any failure
caught and discarded — then `clearSession()` and every piece of in-memory
state reset.  The boolean records whether the server call threw; it
affects nothing. -/
def logout (st : AppState) (serverLogoutFails : Bool) :
    List LogoutStep × AppState :=
  ((if st.client.isSome then [LogoutStep.serverLogout] else []) ++
      [LogoutStep.clearStoredSession],
    { st with
      persistedSession := none
      client := none
      session := none
      rooms := []
      activeRoomId := none
      events := []
      message := ""
      typingUsers := [] })

-- -------------------- concrete sample data --------------------

/-- A well-formedness condition on the modelled client: every event in a
room's live timeline carries that room's id. -/
def ClientWF (c : Client) : Prop :=
  ∀ r ∈ c.rooms, ∀ e ∈ r.liveTimeline, e.roomId = r.roomId

instance (c : Client) : Decidable (ClientWF c) :=
  inferInstanceAs
    (Decidable (∀ r ∈ c.rooms, ∀ e ∈ r.liveTimeline, e.roomId = r.roomId))

/-- Sample event for concrete runs. -/
def evA : MatrixEvent := ⟨"$a", "!room:hs", "first"⟩

/-- Sample event for concrete runs. -/
def evB : MatrixEvent := ⟨"$b", "!room:hs", "mid"⟩

/-- Sample event for concrete runs. -/
def evC : MatrixEvent := ⟨"$c", "!room:hs", "new"⟩

/-- Sample room matching the sample events. -/
def roomR : Room := ⟨"!room:hs", "Room", some 5, [], [], none⟩

/-- A reconciler state holding exactly 200 events for `roomR`. -/
def stFull : TimelineState := ⟨some "!room:hs", evA :: List.replicate 199 evB⟩

/-- A small reconciler state for `roomR`. -/
def stSmall : TimelineState := ⟨some "!room:hs", [evA]⟩

/-- Sample room with one event of its own. -/
def roomB : Room := ⟨"!b:hs", "B", some 3, [⟨"$x", "!b:hs", "hey"⟩], [], none⟩

/-- Client owning `roomB`. -/
def clientW : Client := ⟨[roomB]⟩

/-- Room whose live timeline exceeds the 200-event retention window. -/
def roomBig : Room := ⟨"!big:hs", "Big", some 1, List.replicate 201 ⟨"$y", "!big:hs", "y"⟩, [], none⟩

/-- Client owning `roomBig`. -/
def clientBig : Client := ⟨[roomBig]⟩

/-- Room with no recorded activity. -/
def roomNoAct : Room := ⟨"!a:hs", "A", none, [], [], none⟩

/-- Room whose recorded last-activity timestamp is 0. -/
def roomTs0 : Room := ⟨"!b0:hs", "B0", some 0, [], [], none⟩

/-- Room named "ab" for the filter counterexample. -/
def roomAB : Room := ⟨"!ab:hs", "ab", some 1, [], [], none⟩

/-- Room whose name contains "alice". -/
def roomAlice : Room := ⟨"!al:hs", "alice room", some 2, [], [], none⟩

/-- The predicate the claim ascribes to the filter, with the raw
(untrimmed) query: case-insensitive substring match of the query itself. -/
def specMatchesRaw (r : Room) (query : String) : Prop :=
  jsLower query.toList <:+: jsLower (roomDisplayName r).toList ∨
  jsLower query.toList <:+: jsLower (roomPreviewBody r).toList

instance (r : Room) (query : String) : Decidable (specMatchesRaw r query) :=
  inferInstanceAs
    (Decidable (jsLower query.toList <:+: jsLower (roomDisplayName r).toList ∨
      jsLower query.toList <:+: jsLower (roomPreviewBody r).toList))

/-- The code's filter predicate on the trimmed, lowercased query. -/
def roomMatches (r : Room) (q : JStr) : Prop :=
  q <:+: jsLower (roomDisplayName r).toList ∨
  q <:+: jsLower (roomPreviewBody r).toList

/-- Typing member whose display name is set. -/
def memAlice : Member := ⟨"Alice", "", "", "@alice:hs"⟩

/-- Room in which `memAlice` is typing. -/
def roomTyping : Room := ⟨"!t:hs", "T", some 1, [], [memAlice], none⟩

/-- Client owning `roomTyping`. -/
def clientTyping : Client := ⟨[roomTyping]⟩

-- -------------------- JS string lemmas --------------------

theorem dropWhile_idem (p : α → Bool) (l : List α) :
    (l.dropWhile p).dropWhile p = l.dropWhile p := by
  induction l with
  | nil => rfl
  | cons a t ih =>
    by_cases h : p a = true
    · simp [List.dropWhile_cons, h, ih]
    · simp [List.dropWhile_cons, h]

theorem dropWhile_append_last (p : α → Bool) (l : List α) (a : α)
    (h : p a = false) : (l ++ [a]).dropWhile p = l.dropWhile p ++ [a] := by
  induction l with
  | nil => simp [List.dropWhile_cons, h]
  | cons b t ih =>
    by_cases hb : p b = true
    · simp [List.dropWhile_cons, hb, ih]
    · simp [List.dropWhile_cons, hb]

theorem mem_dropWhile_of_not (p : α → Bool) {l : List α} {c : α}
    (hc : c ∈ l) (hp : p c = false) : c ∈ l.dropWhile p := by
  induction l with
  | nil => cases hc
  | cons a t ih =>
    by_cases h : p a = true
    · simp only [List.dropWhile_cons, h, if_true]
      rcases List.mem_cons.mp hc with rfl | h2
      · rw [hp] at h; cases h
      · exact ih h2
    · simp only [List.dropWhile_cons, h, if_false]
      exact hc

theorem trimLeft_cons_of_not_ws {a : Char} (l : JStr) (h : isJsWS a = false) :
    trimLeft (a :: l) = a :: l := by
  simp [trimLeft, List.dropWhile_cons, h]

theorem trimRight_cons_of_not_ws {a : Char} (l : JStr) (h : isJsWS a = false) :
    trimRight (a :: l) = a :: trimRight l := by
  unfold trimRight
  rw [List.reverse_cons, dropWhile_append_last _ _ _ h, List.reverse_append]
  simp

theorem trimRight_idem (l : JStr) : trimRight (trimRight l) = trimRight l := by
  unfold trimRight
  rw [List.reverse_reverse, dropWhile_idem]

theorem trimLeft_head?_not_ws {l : JStr} {c : Char}
    (h : (trimLeft l).head? = some c) : isJsWS c = false := by
  induction l with
  | nil => cases h
  | cons a t ih =>
    by_cases ha : isJsWS a = true
    · have h' : (trimLeft t).head? = some c := by
        simpa [trimLeft, List.dropWhile_cons, ha] using h
      exact ih h'
    · have hac : a = c := by
        simpa [trimLeft, List.dropWhile_cons, ha] using h
      rw [← hac]
      exact Bool.eq_false_iff.mpr ha

theorem mem_trimRight_of_not_ws {l : JStr} {c : Char}
    (hc : c ∈ l) (hp : isJsWS c = false) : c ∈ trimRight l := by
  unfold trimRight
  rw [List.mem_reverse]
  exact mem_dropWhile_of_not _ (List.mem_reverse.mpr hc) hp

theorem jsTrim_idem (l : JStr) : jsTrim (jsTrim l) = jsTrim l := by
  unfold jsTrim
  cases hm : trimLeft l with
  | nil => rfl
  | cons c t =>
    have hc : isJsWS c = false := trimLeft_head?_not_ws (l := l) (by rw [hm]; rfl)
    rw [trimRight_cons_of_not_ws _ hc, trimLeft_cons_of_not_ws _ hc,
        trimRight_cons_of_not_ws _ hc, trimRight_idem]

theorem trimRight_eq_self_of_getLast {l : JStr}
    (h : ∀ d, l.getLast? = some d → isJsWS d = false) : trimRight l = l := by
  cases hrev : l.reverse with
  | nil =>
    have hl : l = [] := List.reverse_eq_nil_iff.mp hrev
    rw [hl]; rfl
  | cons d t =>
    have hd : l.getLast? = some d := by
      rw [← List.head?_reverse, hrev]; rfl
    have hws : isJsWS d = false := h d hd
    unfold trimRight
    rw [hrev, List.dropWhile_cons, if_neg (by simp [hws]), ← hrev,
        List.reverse_reverse]

-- -------------------- normalizeMxId lemmas --------------------

theorem serverOf_ne_nil (m : JStr) : serverOf m ≠ [] := by
  unfold serverOf
  cases h : (splitOnChar ':' m)[1]? with
  | none => simp [h]; decide
  | some s =>
    by_cases hs : s = []
    · simp [h, hs]; decide
    · simp [h, hs]

theorem normalizeMxId_eq_nil {input : JStr} (m : JStr)
    (h : jsTrim input = []) : normalizeMxId input m = [] := by
  unfold normalizeMxId
  rw [if_pos h]

theorem normalizeMxId_qualified {input : JStr} (m : JStr)
    (h1 : (jsTrim input).head? = some '@') (h2 : ':' ∈ jsTrim input) :
    normalizeMxId input m = jsTrim input := by
  have hne : jsTrim input ≠ [] := by
    intro hn; rw [hn] at h1; cases h1
  unfold normalizeMxId
  rw [if_neg hne, if_pos ⟨h1, h2⟩]

theorem normalizeMxId_expand {input : JStr} (m : JStr)
    (hne : jsTrim input ≠ [])
    (h : ¬((jsTrim input).head? = some '@' ∧ ':' ∈ jsTrim input)) :
    normalizeMxId input m =
      '@' :: ((if (jsTrim input).head? = some '@' then (jsTrim input).tail
               else jsTrim input) ++ ':' :: serverOf m) := by
  unfold normalizeMxId
  rw [if_neg hne, if_neg h]

theorem jsTrim_at_cons (rest : JStr) :
    jsTrim ('@' :: rest) = '@' :: trimRight rest := by
  unfold jsTrim
  rw [trimLeft_cons_of_not_ws _ (by decide), trimRight_cons_of_not_ws _ (by decide)]

theorem normalizeMxId_fixes_qualified {rest : JStr} (m : JStr)
    (h : ':' ∈ rest) :
    normalizeMxId ('@' :: rest) m = jsTrim ('@' :: rest) :=
  normalizeMxId_qualified m
    (by rw [jsTrim_at_cons]; rfl)
    (by rw [jsTrim_at_cons]
        exact List.mem_cons_of_mem _ (mem_trimRight_of_not_ws h (by decide)))

-- -------------------- claim C6 --------------------

/-- Claim C6 (amended): `normalizeMxId` trims its input; empty stays
empty; a trimmed input starting with `'@'` and containing `':'` is
returned (trimmed) unchanged; otherwise any leading `'@'` is stripped and
`'@' + name + ':' + domain` is returned, where the domain is the segment
of `myUserId` between its first and second colon (`split(":")[1]`), not
all text after the first colon, falling back to `"matrix.org"` when that
segment is absent or empty; in particular
`normalizeMxId "bob" "@alice:example.org" = "@bob:example.org"`. -/
theorem c6_normalizeMxId_amended (input m : JStr) :
    (normalizeMxId input m = normalizeMxId (jsTrim input) m) ∧
    (jsTrim input = [] → normalizeMxId input m = []) ∧
    ((jsTrim input).head? = some '@' → ':' ∈ jsTrim input →
      normalizeMxId input m = jsTrim input) ∧
    (jsTrim input ≠ [] →
      ¬((jsTrim input).head? = some '@' ∧ ':' ∈ jsTrim input) →
      normalizeMxId input m =
        '@' :: ((if (jsTrim input).head? = some '@' then (jsTrim input).tail
                 else jsTrim input) ++ ':' :: serverOf m)) ∧
    ((splitOnChar ':' m)[1]? = none → serverOf m = fallbackServer) ∧
    (∀ s, (splitOnChar ':' m)[1]? = some s → s ≠ [] → serverOf m = s) ∧
    normalizeMxId "bob".toList "@alice:example.org".toList =
      "@bob:example.org".toList := by
  refine ⟨?trim, normalizeMxId_eq_nil m, normalizeMxId_qualified m,
    normalizeMxId_expand m, ?fb, ?seg, by decide⟩
  case trim => unfold normalizeMxId; rw [jsTrim_idem]
  case fb => intro h; unfold serverOf; rw [h]
  case seg => intro s h hs; unfold serverOf; rw [h]; simp [hs]

/-- Claim C6 counterexample: with `myUserId = "@alice:example.org:8448"`
the code appends the segment between the first and second colon
(`"example.org"`), not "the text after its `':'`"
(`"example.org:8448"`), so the claimed output formula fails. -/
theorem c6_claim_counterexample :
    normalizeMxId "bob".toList "@alice:example.org:8448".toList =
      "@bob:example.org".toList ∧
    textAfterFirstColon "@alice:example.org:8448".toList =
      some "example.org:8448".toList ∧
    "@bob:example.org".toList ≠
      '@' :: ("bob".toList ++ ':' :: "example.org:8448".toList) :=
  ⟨by decide, by decide, by decide⟩

/-- Witness for `c6_normalizeMxId_amended`: the already-qualified branch
at a concrete input. -/
theorem c6_witness :
    normalizeMxId " @bob:other.org ".toList "@alice:example.org".toList =
      jsTrim " @bob:other.org ".toList :=
  (c6_normalizeMxId_amended " @bob:other.org ".toList
    "@alice:example.org".toList).2.2.1 (by decide) (by decide)

-- -------------------- claim C9 --------------------

/-- Claim C9 (amended): applying `normalizeMxId` twice equals trimming
the first result — `normalizeMxId (normalizeMxId x m) m =
jsTrim (normalizeMxId x m)` — because every non-empty output starts with
`'@'` and contains `':'`.  Idempotence itself holds exactly when that
output is trim-fixed; it is guaranteed whenever the domain appended from
`myUserId` does not end in whitespace, but fails in general because the
second pass trims a trailing-whitespace domain. -/
theorem c9_normalizeMxId_double (input m : JStr) :
    normalizeMxId (normalizeMxId input m) m = jsTrim (normalizeMxId input m) ∧
    (((serverOf m).getLast?.all fun d => !isJsWS d) = true →
      normalizeMxId (normalizeMxId input m) m = normalizeMxId input m) := by
  by_cases hnil : jsTrim input = []
  · have hfo : normalizeMxId input m = [] := normalizeMxId_eq_nil m hnil
    rw [hfo]
    exact ⟨rfl, fun _ => rfl⟩
  · by_cases hq : (jsTrim input).head? = some '@' ∧ ':' ∈ jsTrim input
    · -- already-qualified branch: the output is the trimmed input
      have hfo : normalizeMxId input m = jsTrim input :=
        normalizeMxId_qualified m hq.1 hq.2
      obtain ⟨rest, hrest⟩ : ∃ rest, jsTrim input = '@' :: rest := by
        cases hv : jsTrim input with
        | nil => exact absurd hv hnil
        | cons c t =>
          have hc : c = '@' := by
            have := hq.1
            rw [hv] at this
            simpa using this
          exact ⟨t, by rw [← hc]⟩
      have hcr : ':' ∈ rest := by
        have := hq.2
        rw [hrest] at this
        rcases List.mem_cons.mp this with hbad | hok
        · cases hbad
        · exact hok
      have hfix : normalizeMxId (jsTrim input) m = jsTrim (jsTrim input) := by
        rw [hrest]
        exact normalizeMxId_fixes_qualified m hcr
      refine ⟨by rw [hfo]; exact hfix, fun _ => ?_⟩
      rw [hfo, hfix, jsTrim_idem]
    · -- expansion branch: the output is '@' :: name ++ ':' :: serverOf m
      have hfo := normalizeMxId_expand m hnil hq
      set name := (if (jsTrim input).head? = some '@' then (jsTrim input).tail
                   else jsTrim input) with hname
      have hcr : ':' ∈ name ++ ':' :: serverOf m :=
        List.mem_append_right _ (List.mem_cons_self ':' _)
      have hfix : normalizeMxId ('@' :: (name ++ ':' :: serverOf m)) m =
          jsTrim ('@' :: (name ++ ':' :: serverOf m)) :=
        normalizeMxId_fixes_qualified m hcr
      refine ⟨by rw [hfo]; exact hfix, fun hws => ?_⟩
      rw [hfo, hfix, jsTrim_at_cons]
      have htr : trimRight (name ++ ':' :: serverOf m) =
          name ++ ':' :: serverOf m := by
        apply trimRight_eq_self_of_getLast
        intro d hd
        have hsplit : name ++ ':' :: serverOf m =
            (name ++ [':']) ++ serverOf m := by
          simp [List.append_assoc]
        rw [hsplit, List.getLast?_append_of_ne_nil _ (serverOf_ne_nil m)] at hd
        rw [hd] at hws
        simpa using hws
      rw [htr]

/-- Claim C9 counterexample: with `myUserId = "@alice:x "` (domain
segment ending in a space) the first pass returns `"@bob:x "` and the
second pass trims it to `"@bob:x"`, so idempotence fails. -/
theorem c9_claim_counterexample :
    normalizeMxId (normalizeMxId "bob".toList "@alice:x ".toList)
        "@alice:x ".toList ≠
      normalizeMxId "bob".toList "@alice:x ".toList := by decide

/-- Witness for `c9_normalizeMxId_double`: idempotence at a concrete
whitespace-free domain. -/
theorem c9_witness :
    normalizeMxId (normalizeMxId "bob".toList "@alice:example.org".toList)
        "@alice:example.org".toList =
      normalizeMxId "bob".toList "@alice:example.org".toList :=
  (c9_normalizeMxId_double "bob".toList "@alice:example.org".toList).2
    (by decide)

-- -------------------- timeline reconciler lemmas --------------------

theorem getLast?_drop_of_lt (l : List α) (k : Nat) (h : k < l.length) :
    (l.drop k).getLast? = l.getLast? := by
  induction l generalizing k with
  | nil => cases h
  | cons a t ih =>
    cases k with
    | zero => rfl
    | succ k' =>
      have h' : k' < t.length := Nat.lt_of_succ_lt_succ h
      rw [List.drop_succ_cons, ih k' h']
      cases t with
      | nil => cases h'
      | cons b t' => rfl

theorem onRoomTimeline_live {ev : MatrixEvent} {r : Room}
    {st : TimelineState} (h : st.activeRoomId = some r.roomId) :
    onRoomTimeline ev (some r) false st =
      { st with events :=
          if 200 < (st.events ++ [ev]).length then
            (st.events ++ [ev]).drop ((st.events ++ [ev]).length - 200)
          else st.events ++ [ev] } := by
  simp [onRoomTimeline, h]

-- -------------------- claim C2 --------------------

/-- Claim C2: a historical (back-filled) append, an append with no room,
or an append for a room other than the active one leaves the reconciler
state completely unchanged; a live append for the active room appends the
event at the tail (the result is a suffix of the old sequence plus the
new event, ending in the new event) and keeps the selection. -/
theorem c2_append_guard (ev : MatrixEvent) (room : Option Room)
    (toStart : Bool) (st : TimelineState) :
    (toStart = true → onRoomTimeline ev room toStart st = st) ∧
    (room = none → onRoomTimeline ev room toStart st = st) ∧
    (∀ r, room = some r → st.activeRoomId ≠ some r.roomId →
      onRoomTimeline ev room toStart st = st) ∧
    (∀ r, room = some r → toStart = false → st.activeRoomId = some r.roomId →
      (onRoomTimeline ev room toStart st).events.getLast? = some ev ∧
      (onRoomTimeline ev room toStart st).events <:+ st.events ++ [ev] ∧
      (onRoomTimeline ev room toStart st).activeRoomId = st.activeRoomId) := by
  refine ⟨?hist, ?noroom, ?other, ?live⟩
  case hist => intro h; rw [h]; rfl
  case noroom =>
    intro h; rw [h]
    cases toStart <;> rfl
  case other =>
    intro r hr hne
    rw [hr]
    cases toStart with
    | true => rfl
    | false => simp [onRoomTimeline, hne]
  case live =>
    intro r hr ht ha
    subst hr; subst ht
    rw [onRoomTimeline_live ha]
    refine ⟨?tail, ?suff, rfl⟩
    case tail =>
      by_cases hlen : 200 < (st.events ++ [ev]).length
      · rw [if_pos hlen, getLast?_drop_of_lt _ _
          (Nat.sub_lt (Nat.lt_of_le_of_lt (Nat.zero_le _) hlen) (by omega))]
        exact List.getLast?_concat _
      · rw [if_neg hlen]
        exact List.getLast?_concat _
    case suff =>
      by_cases hlen : 200 < (st.events ++ [ev]).length
      · rw [if_pos hlen]; exact List.drop_suffix _ _
      · rw [if_neg hlen]

/-- Witness for `c2_append_guard`: a historical append leaves the state
unchanged, and a live append for the active room puts the event at the
tail. -/
theorem c2_witness :
    onRoomTimeline evC (some roomR) true stSmall = stSmall ∧
    (onRoomTimeline evC (some roomR) false stSmall).events.getLast? =
      some evC :=
  ⟨(c2_append_guard evC (some roomR) true stSmall).1 rfl,
   ((c2_append_guard evC (some roomR) false stSmall).2.2.2 roomR rfl rfl
     (by decide)).1⟩

-- -------------------- claim C3 --------------------

/-- Claim C3 (amended): on a live append for the active room, if the
resulting sequence exceeds the 200-entry retention window, entries are
dropped from the head until exactly the most recent 200 remain; appending
when strictly below the bound keeps all existing entries plus the new
one.  (At exactly the bound the resulting 201 entries already exceed the
window, so the oldest entry is dropped.) -/
theorem c3_retention_window (ev : MatrixEvent) (r : Room)
    (st : TimelineState) (hactive : st.activeRoomId = some r.roomId) :
    (st.events.length < 200 →
      (onRoomTimeline ev (some r) false st).events = st.events ++ [ev]) ∧
    (200 ≤ st.events.length →
      (onRoomTimeline ev (some r) false st).events =
        (st.events ++ [ev]).drop (st.events.length + 1 - 200) ∧
      (onRoomTimeline ev (some r) false st).events.length = 200) := by
  rw [onRoomTimeline_live hactive]
  have hlen : (st.events ++ [ev]).length = st.events.length + 1 := by
    simp
  constructor
  · intro hlt
    rw [if_neg (by omega)]
  · intro hge
    rw [if_pos (by omega), hlen]
    exact ⟨rfl, by rw [List.length_drop, hlen]; omega⟩

/-- Claim C3 counterexample: a sequence holding exactly 200 entries is at
the bound, yet a live append drops the oldest entry `evA` instead of
keeping all existing entries plus the new one. -/
theorem c3_claim_counterexample :
    stFull.events.length ≤ 200 ∧ evA ∈ stFull.events ∧
    (onRoomTimeline evC (some roomR) false stFull).events =
      List.replicate 199 evB ++ [evC] ∧
    evA ∉ (onRoomTimeline evC (some roomR) false stFull).events := by
  have h1 : stFull.events.length = 200 := by simp [stFull]
  have hact : stFull.activeRoomId = some roomR.roomId := by decide
  have hlen : (stFull.events ++ [evC]).length = 201 := by simp [stFull]
  have h3 : (onRoomTimeline evC (some roomR) false stFull).events =
      List.replicate 199 evB ++ [evC] := by
    rw [onRoomTimeline_live hact]
    show (if 200 < (stFull.events ++ [evC]).length then
        (stFull.events ++ [evC]).drop ((stFull.events ++ [evC]).length - 200)
      else stFull.events ++ [evC]) = _
    rw [if_pos (by omega), hlen]
    show (stFull.events ++ [evC]).drop 1 = _
    simp [stFull]
  refine ⟨by omega, List.mem_cons_self _ _, h3, ?_⟩
  rw [h3]
  intro hmem
  rcases List.mem_append.mp hmem with hrep | hsing
  · exact absurd (List.eq_of_mem_replicate hrep) (by decide)
  · rcases List.mem_singleton.mp hsing with h
    exact absurd h (by decide)

/-- Witness for `c3_retention_window`: appending strictly below the bound
keeps everything. -/
theorem c3_witness :
    stSmall.events.length < 200 ∧
    (onRoomTimeline evC (some roomR) false stSmall).events =
      stSmall.events ++ [evC] :=
  ⟨by decide,
   (c3_retention_window evC roomR stSmall (by decide)).1 (by decide)⟩

-- -------------------- claim C1 --------------------

/-- Claim C1: switching the active room selection replaces the event
sequence with a fresh read of the target room's live timeline — for a
well-formed client every event then belongs to the newly selected room —
and empties it when the room is unknown or the selection is null; this
holds for every prior state, in particular right after a live append to
the previously active room. -/
theorem c1_room_switch_replaces_events (c : Client) (hwf : ClientWF c)
    (st0 : TimelineState) (ev : MatrixEvent) (ra : Option Room) (b : String) :
    (selectRoom (some c) (onRoomTimeline ev ra false st0) (some b)).activeRoomId
        = some b ∧
    (c.getRoom b = none →
      (selectRoom (some c) (onRoomTimeline ev ra false st0) (some b)).events
        = []) ∧
    (∀ rb, c.getRoom b = some rb →
      (selectRoom (some c) (onRoomTimeline ev ra false st0) (some b)).events
          = rb.liveTimeline ∧
      ∀ e ∈ (selectRoom (some c) (onRoomTimeline ev ra false st0)
          (some b)).events, e.roomId = b) ∧
    (∀ st : TimelineState, (selectRoom (some c) st none).events = []) := by
  refine ⟨?sel, ?unknown, ?known, fun st => rfl⟩
  case sel =>
    cases h : c.getRoom b <;> simp [selectRoom, activeRoomOf, h]
  case unknown =>
    intro h; simp [selectRoom, activeRoomOf, h]
  case known =>
    intro rb h
    have hev : (selectRoom (some c) (onRoomTimeline ev ra false st0)
        (some b)).events = rb.liveTimeline := by
      simp [selectRoom, activeRoomOf, h]
    refine ⟨hev, ?_⟩
    intro e he
    rw [hev] at he
    have hid : rb.roomId = b := by
      have := List.find?_some h
      simpa using this
    rw [← hid]
    exact hwf rb (List.mem_of_find?_eq_some h) e he

/-- Witness for `c1_room_switch_replaces_events`: switching to `roomB`
right after a live append for `roomR` yields exactly `roomB`'s live
timeline. -/
theorem c1_witness :
    (selectRoom (some clientW) (onRoomTimeline evA (some roomR) false stSmall)
        (some "!b:hs")).events = roomB.liveTimeline :=
  ((c1_room_switch_replaces_events clientW (by decide) stSmall evA
    (some roomR) "!b:hs").2.2.1 roomB (by decide)).1

-- -------------------- claim C10 --------------------

/-- Claim C10: selecting a room copies its full live timeline into the
local sequence with no truncation; a room holding more than 200 events
yields a local sequence that also exceeds 200 entries — the retention
bound is enforced only by subsequent live appends, not by selection. -/
theorem c10_select_no_truncation (c : Client) (st : TimelineState)
    (rid : String) (rb : Room) (h : c.getRoom rid = some rb) :
    (selectRoom (some c) st (some rid)).events = rb.liveTimeline ∧
    (200 < rb.liveTimeline.length →
      200 < (selectRoom (some c) st (some rid)).events.length) := by
  have hev : (selectRoom (some c) st (some rid)).events = rb.liveTimeline := by
    simp [selectRoom, activeRoomOf, h]
  exact ⟨hev, fun hl => by rw [hev]; exact hl⟩

/-- Witness for `c10_select_no_truncation`: selecting a room with 201
events leaves 201 local entries. -/
theorem c10_witness :
    200 < roomBig.liveTimeline.length ∧
    200 < (selectRoom (some clientBig) stSmall (some "!big:hs")).events.length := by
  have hlen : 200 < roomBig.liveTimeline.length := by
    simp [roomBig]
  exact ⟨hlen,
    (c10_select_no_truncation clientBig stSmall "!big:hs" roomBig
      (by decide)).2 hlen⟩

-- -------------------- claim C4 --------------------

/-- Claim C4 (amended): the registry refresh returns a permutation of
the client's room set sorted in non-increasing order of last-activity
timestamp, a room with no recorded activity being given the floor value
0; consequently such a room sorts after every room with a *positive*
recorded timestamp (a room whose recorded timestamp is exactly 0 ties
with it, and the stable sort keeps their original relative order). -/
theorem c4_rooms_sorted (c : Client) :
    List.Sorted byActivityDesc (updateRooms c) ∧
    List.Perm (updateRooms c) c.rooms ∧
    (∀ i j : Fin (updateRooms c).length, i < j →
      ((updateRooms c).get i).lastActiveTimestamp = none →
      lastTs ((updateRooms c).get j) = 0) := by
  refine ⟨List.sorted_insertionSort _ _, List.perm_insertionSort _ _, ?_⟩
  intro i j hij hnone
  have hs : lastTs ((updateRooms c).get j) ≤ lastTs ((updateRooms c).get i) :=
    (List.sorted_insertionSort byActivityDesc c.rooms).rel_get_of_lt hij
  have hz : lastTs ((updateRooms c).get i) = 0 := by
    unfold lastTs
    rw [hnone]
    rfl
  omega

/-- Claim C4 counterexample: a room with no recorded activity and a room
whose recorded timestamp is 0 compare equal under the floor, so the
stable sort leaves the no-activity room *before* a room that has a
recorded timestamp. -/
theorem c4_claim_counterexample :
    updateRooms ⟨[roomNoAct, roomTs0]⟩ = [roomNoAct, roomTs0] ∧
    roomNoAct.lastActiveTimestamp = none ∧
    roomTs0.lastActiveTimestamp = some 0 :=
  ⟨by decide, rfl, rfl⟩

/-- Witness for `c4_rooms_sorted`: in the sorted output of the two-room
client, every room after the no-activity room has key 0. -/
theorem c4_witness :
    lastTs ((updateRooms ⟨[roomNoAct, roomTs0]⟩).get ⟨1, by decide⟩) = 0 :=
  (c4_rooms_sorted ⟨[roomNoAct, roomTs0]⟩).2.2 ⟨0, by decide⟩ ⟨1, by decide⟩
    (by decide) (by decide)

-- -------------------- claim C5 --------------------

/-- Claim C5 (amended): a query that is empty *after trimming* returns
the room sequence unchanged; otherwise the filter keeps exactly the
rooms whose display name (name, falling back to the room id) or
last-message preview body contains the *trimmed* query as a
case-insensitive substring, preserving order. -/
theorem c5_filter (rooms : List Room) (query : String) :
    (jsTrim query.toList = [] → filteredRooms rooms query = rooms) ∧
    (jsTrim query.toList ≠ [] →
      (∀ r, r ∈ filteredRooms rooms query ↔
        r ∈ rooms ∧ roomMatches r (jsLower (jsTrim query.toList))) ∧
      List.Sublist (filteredRooms rooms query) rooms) := by
  constructor
  · intro h
    have hq : jsLower (jsTrim query.toList) = [] := by
      rw [h]; rfl
    unfold filteredRooms
    rw [if_pos hq]
  · intro h
    have hq : jsLower (jsTrim query.toList) ≠ [] := by
      intro hn
      exact h (List.map_eq_nil_iff.mp hn)
    have hexp : filteredRooms rooms query =
        rooms.filter (fun r =>
          jsIncludes (jsLower (roomDisplayName r).toList)
            (jsLower (jsTrim query.toList)) ||
          jsIncludes (jsLower (roomPreviewBody r).toList)
            (jsLower (jsTrim query.toList))) := by
      unfold filteredRooms
      rw [if_neg hq]
    rw [hexp]
    refine ⟨fun r => ?_, List.filter_sublist _⟩
    rw [List.mem_filter]
    simp only [jsIncludes, roomMatches, Bool.or_eq_true, decide_eq_true_eq]

/-- Claim C5 counterexample: the query `" "` is non-empty, yet the code
trims it to empty and returns the list unchanged, keeping a room whose
name and preview do not contain `" "` — the claimed exact
characterization fails for queries with surrounding whitespace. -/
theorem c5_claim_counterexample :
    " " ≠ "" ∧
    filteredRooms [roomAB] " " = [roomAB] ∧
    ¬ specMatchesRaw roomAB " " :=
  ⟨by decide, by decide, by decide⟩

/-- Witness for `c5_filter`: the query `"ALICE"` matches the room named
"alice room" case-insensitively. -/
theorem c5_witness :
    roomAlice ∈ filteredRooms [roomAlice] "ALICE" ↔
      roomAlice ∈ [roomAlice] ∧
        roomMatches roomAlice (jsLower (jsTrim "ALICE".toList)) :=
  ((c5_filter [roomAlice] "ALICE").2 (by decide)).1 roomAlice

-- -------------------- claim C7 --------------------

/-- Claim C7: `logout` attempts the best-effort server-side logout first
(exactly when a client exists, any failure ignored) and then
unconditionally clears the persisted session record and resets every
piece of in-memory state — for every starting state and either outcome of
the server call, the resulting state is the same fully-cleared state,
never a partial one. -/
theorem c7_logout_total_reset (st : AppState) (fails : Bool) :
    (logout st fails).2 = emptyAfterLogout ∧
    logout st true = logout st false ∧
    (logout st fails).1 =
      (if st.client.isSome then [LogoutStep.serverLogout] else []) ++
        [LogoutStep.clearStoredSession] :=
  ⟨rfl, rfl, rfl⟩

-- -------------------- claim C8 --------------------

/-- Claim C8: the recomputed typing set never contains the local user's
own id, holds at most 3 entries, and every entry is the display
identifier of a member currently typing in the active room. -/
theorem c8_typing_projection (c : Client) (active : Option String)
    (my : Option String) :
    (updateTypingForActive c active my).length ≤ 3 ∧
    (∀ n ∈ updateTypingForActive c active my, some n ≠ my) ∧
    (∀ n ∈ updateTypingForActive c active my,
      ∃ rid room, active = some rid ∧ c.getRoom rid = some room ∧
        ∃ m ∈ room.typingMembers, jsMemberName m = n) := by
  cases active with
  | none => exact ⟨by simp [updateTypingForActive], by simp [updateTypingForActive],
      by simp [updateTypingForActive]⟩
  | some rid =>
    cases hroom : c.getRoom rid with
    | none => exact ⟨by simp [updateTypingForActive, hroom],
        by simp [updateTypingForActive, hroom],
        by simp [updateTypingForActive, hroom]⟩
    | some room =>
      have hout : updateTypingForActive c (some rid) my =
          (((room.typingMembers.map jsMemberName).filter (fun n => n != ""))
            |>.filter (fun n =>
              match my with
              | some u => n != u
              | none => true)
            |>.take 3) := by
        simp [updateTypingForActive, hroom]
      refine ⟨?len, ?notme, ?fromMembers⟩
      case len => rw [hout]; exact List.length_take_le _ _
      case notme =>
        intro n hn
        rw [hout] at hn
        have hn2 := List.mem_filter.mp (List.mem_of_mem_take hn)
        cases my with
        | none => simp
        | some u =>
          have : n ≠ u := by simpa using hn2.2
          simpa using this
      case fromMembers =>
        intro n hn
        rw [hout] at hn
        have hn2 := (List.mem_filter.mp (List.mem_of_mem_take hn)).1
        have hn3 := (List.mem_filter.mp hn2).1
        obtain ⟨m, hm, hmn⟩ := List.mem_map.mp hn3
        exact ⟨rid, room, rfl, hroom, m, hm, hmn⟩

/-- Witness for `c8_typing_projection`: with `memAlice` typing in the
active room, the displayed entry "Alice" is not the local user's id and
comes from a typing member. -/
theorem c8_witness :
    "Alice" ∈ updateTypingForActive clientTyping (some "!t:hs")
      (some "@me:hs") ∧
    some "Alice" ≠ some "@me:hs" ∧
    ∃ rid room, (some "!t:hs" : Option String) = some rid ∧
      clientTyping.getRoom rid = some room ∧
      ∃ m ∈ room.typingMembers, jsMemberName m = "Alice" :=
  ⟨by decide,
   (c8_typing_projection clientTyping (some "!t:hs") (some "@me:hs")).2.1
     "Alice" (by decide),
   (c8_typing_projection clientTyping (some "!t:hs") (some "@me:hs")).2.2
     "Alice" (by decide)⟩

end HappyChat
